import Mathlib

/-! Shallow embedding of `target-nats-kv/src/target_nats_kv/__init__.py`:
the data model and the `persist_messages` loop (per-message dispatch, key
checks, provenance enrichment, and the bookmark-based conflict resolver
against a NATS JetStream key/value store), together with theorems settling
the specification claims about it. -/

namespace TargetNatsKv

/-- A Singer record: an insertion-ordered mapping from field names to values.
Field values are modelled by their Python stringification `str(value)`, which
is all the code observes of them (key building, bookmark comparison as
strings, and JSON serialization of string-valued fields). -/
abbrev Record := List (String × String)

/-- Python `key in dict`: the record has a field with the given name. -/
def hasField (r0 : Record) (k : String) : Bool :=
  (r0.find? (fun p => p.1 == k)).isSome

/-- Python `dict[key]` lookup (first binding; Python dicts have unique keys). -/
def getField (r0 : Record) (k : String) : String :=
  ((r0.find? (fun p => p.1 == k)).map Prod.snd).getD ""

/-- Python string comparison on character lists: code-point lexicographic,
with a proper prefix strictly smaller. -/
def charListLt : List Char → List Char → Bool
  | [], [] => false
  | [], _ :: _ => true
  | _ :: _, [] => false
  | a :: as, b :: bs =>
    if a.toNat < b.toNat then true
    else if b.toNat < a.toNat then false
    else charListLt as bs

/-- Python `s < t` on strings (so `s > t` is `pyStrLt t s`). -/
def pyStrLt (s t : String) : Bool := charListLt s.toList t.toList

/-- JSON string escaping as performed by `json.dumps` on the characters our
model manipulates (quote and backslash). -/
def jsonEscape (s : String) : String :=
  s.toList.foldl
    (fun acc c =>
      if c == '\"' then acc ++ "\\\""
      else if c == '\\' then acc ++ "\\\\"
      else acc.push c) ""

/-- One `"name": "value"` member of a serialized JSON object. -/
def serializeField (p : String × String) : String :=
  "\"" ++ jsonEscape p.1 ++ "\": \"" ++ jsonEscape p.2 ++ "\""

/-- `json.dumps(record)` with simplejson's default separators `", "` and
`": "`, fields in insertion order. -/
def serializeRecord (r0 : Record) : String :=
  "\x7b" ++ String.intercalate ", " (r0.map serializeField) ++ "\x7d"

/-- Whether `pat` occurs at the start of `hay` (character lists). -/
def startsWithChars : List Char → List Char → Bool
  | [], _ => true
  | _ :: _, [] => false
  | p :: ps, h :: hs => p == h && startsWithChars ps hs

/-- Whether `pat` occurs anywhere inside `hay` (character lists). -/
def infixChars (pat : List Char) : List Char → Bool
  | [] => startsWithChars pat []
  | h :: hs => startsWithChars pat (h :: hs) || infixChars pat hs

/-- Python `pat in hay` on strings: substring containment. -/
def containsSubstr (hay pat : String) : Bool := infixChars pat.toList hay.toList

/-- A stored entry of the key/value bucket: the value (`none` models an
absent/empty byte payload, `some r` a payload that decodes to record `r`)
and the store-assigned revision used for fencing. -/
structure Entry where
  value : Option Record
  revision : Nat
deriving DecidableEq

/-- The key/value bucket: keyed entries plus the next revision the store
will assign. -/
structure Store where
  entries : List (String × Entry)
  nextRev : Nat
deriving DecidableEq

/-- `kv_client.get(key)`: the entry at a key, if present. -/
def storeGet (s : Store) (k : String) : Option Entry :=
  (s.entries.find? (fun p => p.1 == k)).map Prod.snd

/-- A write to the bucket (used for `put`, `create` and `update` alike in
this single-threaded model): bind the key to the value at a fresh revision. -/
def storeWrite (s : Store) (k : String) (v : Record) : Store :=
  ⟨(k, ⟨some v, s.nextRev⟩) :: s.entries.filter (fun p => p.1 != k), s.nextRev + 1⟩

/-- Per-stream registry state built by a SCHEMA message: the compiled
validator (`Draft4Validator(schema).validate`, modelled as a black-box
predicate on records), the key property list and the bookmark property
list. The four Python dicts `schemas` / `key_properties` / `bookmarks` /
`validators` are always populated together by the SCHEMA handler, so they
are modelled as one map. -/
structure StreamMeta where
  validator : Record → Bool
  keyProps : List String
  bookmarkProps : Option (List String)

/-- The loop's mutable state: the held Singer checkpoint (`state`) and the
per-stream registry. -/
structure LoopState where
  checkpoint : Option String
  registry : List (String × StreamMeta)

/-- Registry lookup by stream name. -/
def lookupMeta (reg : List (String × StreamMeta)) (stream : String) :
    Option StreamMeta :=
  (reg.find? (fun p => p.1 == stream)).map Prod.snd

/-- Registry update by stream name (SCHEMA replaces any prior entry). -/
def setMeta (reg : List (String × StreamMeta)) (stream : String)
    (m : StreamMeta) : List (String × StreamMeta) :=
  (stream, m) :: reg.filter (fun p => p.1 != stream)

/-- The four parsed Singer message variants plus the unknown-type case
(`singer.parse_message` returning a value the dispatch does not recognize). -/
inductive Message where
  | record (stream : String) (r0 : Record) (timeExtracted : Option String)
  | schema (stream : String) (validator : Record → Bool)
      (keyProps : List String) (bookmarkProps : Option (List String))
  | state (value : String)
  | activateVersion (stream : String) (version : Nat)
  | unknown

/-- The store operation the resolver executed for a record, with its
arguments: `put` (unconditional), `create` (after a not-found get),
`update` (fenced on the revision the get returned), or `getSkip` (a get
was performed and then no write was issued, for the stated reason). -/
inductive StoreAction where
  | put (key : String) (value : Record)
  | create (key : String) (value : Record)
  | update (key : String) (value : Record) (expectedRev : Nat)
  | getSkip (key : String) (reason : String)
deriving DecidableEq

/-- Outcome of processing one RECORD message: a fatal exception (aborts the
run), a per-record rejection before any store access, or a store action. -/
inductive RecordOutcome where
  | fatal (msg : String)
  | rejected (reason : String)
  | acted (act : StoreAction)
deriving DecidableEq

/-- Result of one step of the loop: new loop state, new store, the record
outcome (`none` for non-record messages), and the warnings logged. -/
structure StepResult where
  ls : LoopState
  store : Store
  outcome : Option RecordOutcome
  warnings : List String

/-- The characters JetStream forbids in a key, as listed by the code:
space, `.`, `*`, `>`, NUL. -/
def invalidKeyChars : List Char := [' ', '.', '*', '>', '\x00']

/-- The warnings the character-scan loop logs: one per offending character
of the primary key. The loop only logs; its `continue` re-enters the inner
loop, so it never rejects the record. -/
def badCharWarnings (stream pk : String) : List String :=
  (pk.toList.filter (fun c => invalidKeyChars.contains c)).map
    (fun c =>
      "Ignoring record for stream " ++ stream ++
        " with primary key containing invalid character " ++ String.singleton c)

/-- Record enrichment before persistence (lines 152-158): add
`_sdc_extracted_at` only when the message carried `time_extracted` and the
field is absent, then add `_sdc_received_at` (the current time `now`) when
absent. Python dict assignment of a fresh key appends it at the end. -/
def enrichRecord (r0 : Record) (timeExtracted : Option String)
    (now : String) : Record :=
  let r1 := match timeExtracted with
    | some t =>
        if hasField r0 "_sdc_extracted_at" then r0
        else r0 ++ [("_sdc_extracted_at", t)]
    | none => r0
  if hasField r1 "_sdc_received_at" then r1
  else r1 ++ [("_sdc_received_at", now)]

/-- The freshness comparison attribute for a stream: the first element of
the bookmark property list when that list is present and non-empty. -/
def bookmarkAttrOf (bps : Option (List String)) : Option String :=
  match bps with
  | some (b :: _) => some b
  | _ => none

/-- `record[attr] if attr in record else ""`: the freshness value read from
a record (lines 166-169 and 199-202). -/
def freshnessOf (r0 : Record) (attr : String) : String :=
  if hasField r0 attr then getField r0 attr else ""

/-- Processing of one RECORD message (lines 76-238), translated branch by
branch: unknown stream raises; key-property and key-shape checks reject;
the invalid-character scan only logs (its `continue` continues the inner
character loop); schema validation runs on the record as received;
the record is then enriched and either unconditionally put (no bookmark
configured) or resolved through get / create / fenced update / skip.
`state = None` (line 238) is reached only on the put and create paths;
every other path leaves the loop via `continue` first. -/
def processRecord (pre now : String) (ls : LoopState) (store : Store)
    (stream : String) (r0 : Record) (timeExtracted : Option String) :
    StepResult :=
  match lookupMeta ls.registry stream with
  | none =>
      ⟨ls, store,
        some (.fatal ("A record for stream " ++ stream ++
          "was encountered before a corresponding schema")), []⟩
  | some meta =>
    if meta.keyProps.length ≠ 1 then
      ⟨ls, store, some (.rejected "needs exactly 1 configured key property"), []⟩
    else
      let kp := meta.keyProps.headD ""
      if ¬ hasField r0 kp then
        ⟨ls, store, some (.rejected "missing configured key property"), []⟩
      else
        let pk := getField r0 kp
        if pk = "" then
          ⟨ls, store, some (.rejected "empty primary key"), []⟩
        else if pk.toList.headD ' ' == '$' then
          ⟨ls, store, some (.rejected "primary key starting with $"), []⟩
        else
          let warns := badCharWarnings stream pk
          if ¬ meta.validator r0 then
            ⟨ls, store, some (.rejected "fails schema validation"), warns⟩
          else
            let key := pre ++ stream ++ "." ++ pk
            let r2 := enrichRecord r0 timeExtracted now
            match bookmarkAttrOf meta.bookmarkProps with
            | none =>
                ⟨⟨none, ls.registry⟩, storeWrite store key r2,
                  some (.acted (.put key r2)), warns⟩
            | some attr =>
              match storeGet store key with
              | none =>
                  ⟨⟨none, ls.registry⟩, storeWrite store key r2,
                    some (.acted (.create key r2)), warns⟩
              | some entry =>
                match entry.value with
                | none =>
                    ⟨ls, store,
                      some (.acted (.getSkip key "unexpected empty existing value")),
                      warns ++ ["Unexpected empty existing value"]⟩
                | some cur =>
                  if containsSubstr (serializeRecord cur) "_sdc_deleted_at" then
                    ⟨ls, store, some (.acted (.getSkip key "target deleted")), warns⟩
                  else
                    if pyStrLt (freshnessOf cur attr) (freshnessOf r2 attr) then
                      ⟨ls, storeWrite store key r2,
                        some (.acted (.update key r2 entry.revision)), warns⟩
                    else
                      ⟨ls, store, some (.acted (.getSkip key "not newer")), warns⟩

/-- Dispatch of one parsed message (the `isinstance` chain): RECORD goes to
`processRecord`; STATE replaces the checkpoint; SCHEMA replaces the stream's
registry entry; ACTIVATE_VERSION and unknown variants are logged and
ignored. -/
def processMessage (pre now : String) (ls : LoopState) (store : Store) :
    Message → StepResult
  | .record stream r0 te => processRecord pre now ls store stream r0 te
  | .state v => ⟨⟨some v, ls.registry⟩, store, none, []⟩
  | .schema stream validator kps bps =>
      ⟨⟨ls.checkpoint, setMeta ls.registry stream ⟨validator, kps, bps⟩⟩,
        store, none, []⟩
  | .activateVersion stream _ =>
      ⟨ls, store, none,
        ["ACTIVATE_VERSION is unsupported (" ++ stream ++ ")"]⟩
  | .unknown => ⟨ls, store, none, ["Unknown message"]⟩

/-- One input line, after the decoder ran on it. Modelled from the spec:
the decoder (`singer.parse_message`, a collaborator outside this
repository) either fails to parse a line or yields one of the message
variants; the dispatch code under test catches the parse failure, logs it
and re-raises. -/
inductive ParseItem where
  | failure (line : String)
  | msg (m : Message)

/-- The replication loop over the decoded input (lines 69-256): a parse
failure is re-raised and aborts the run; a record whose processing raised
aborts the run; otherwise processing continues with the next message, and
at end of input the held checkpoint and store are returned. -/
def runMessages (pre now : String) :
    List ParseItem → LoopState → Store → Except String (LoopState × Store)
  | [], ls, store => .ok (ls, store)
  | .failure line :: _, _, _ => .error ("Unable to parse: " ++ line)
  | .msg m :: rest, ls, store =>
    let r := processMessage pre now ls store m
    match r.outcome with
    | some (.fatal e) => .error e
    | _ => runMessages pre now rest r.ls r.store

/-- Whether a record outcome reached `state = None` (line 238): only the
unconditional-put and the create paths fall through to it; the update path
and every skip or rejection path leave the loop body via `continue`. -/
def clearsCheckpoint : Option RecordOutcome → Bool
  | some (.acted (.put _ _)) => true
  | some (.acted (.create _ _)) => true
  | _ => false

/-- Whether a record outcome is a skip after a successful get (no write). -/
def isGetSkip : Option RecordOutcome → Bool
  | some (.acted (.getSkip _ _)) => true
  | _ => false

/-- The store key a store action addressed. -/
def actionKey : StoreAction → String
  | .put k _ => k
  | .create k _ => k
  | .update k _ _ => k
  | .getSkip k _ => k

/-- The record value a record outcome wrote to the store, if it wrote one. -/
def writtenValue : Option RecordOutcome → Option Record
  | some (.acted (.put _ v)) => some v
  | some (.acted (.create _ v)) => some v
  | some (.acted (.update _ v _)) => some v
  | _ => none

/-- The conflict-resolution rule exactly as claim C1 states it (transcribed
from the claim's words, for comparison against the code): no freshness
property means an unconditional put; otherwise get, and (a) not found means
create, (b) existing freshness strictly below the candidate's (absent
freshness reads as the empty string) means a fenced update at the revision
the get returned, (c) otherwise skip. -/
def claimedDecisionC1 (meta : StreamMeta) (store : Store) (key : String)
    (r2 : Record) : StoreAction :=
  match bookmarkAttrOf meta.bookmarkProps with
  | none => .put key r2
  | some attr =>
    match storeGet store key with
    | none => .create key r2
    | some entry =>
      let target := match entry.value with
        | some cur => freshnessOf cur attr
        | none => ""
      if pyStrLt target (freshnessOf r2 attr) then .update key r2 entry.revision
      else .getSkip key "skip"

/-- A validator that accepts every record (a schema with no constraints). -/
def acceptAll : Record → Bool := fun _ => true

/-- A validator that rejects exactly the records containing the provenance
field `_sdc_received_at` (a schema forbidding that field). -/
def rejectReceived : Record → Bool := fun r0 => !(hasField r0 "_sdc_received_at")

/-- An empty bucket whose first assigned revision will be 1. -/
def store0 : Store := ⟨[], 1⟩

/-- Registry with stream `s` (key property `id`, no bookmark property) and a
held checkpoint. -/
def lsPlain : LoopState := ⟨some "S0", [("s", ⟨acceptAll, ["id"], none⟩)]⟩

/-- Stream metadata with key property `id` and bookmark list `[updated_at]`. -/
def metaBook : StreamMeta := ⟨acceptAll, ["id"], some ["updated_at"]⟩

/-- Registry with stream `s` carrying `metaBook` and a held checkpoint. -/
def lsBook : LoopState := ⟨some "S0", [("s", metaBook)]⟩

/-- Bucket where `s.1` holds a record with an actual `_sdc_deleted_at` field
and freshness `a`, at revision 5. -/
def storeTombField : Store :=
  ⟨[("s.1", ⟨some [("_sdc_deleted_at", "2020"), ("updated_at", "a")], 5⟩)], 6⟩

/-- Bucket where `s.1` holds a record with no `_sdc_deleted_at` field, but
whose serialized value contains that string inside a field value. -/
def storeTombSubstr : Store :=
  ⟨[("s.1", ⟨some [("updated_at", "a"), ("note", "_sdc_deleted_at")], 5⟩)], 6⟩

/-- Bucket where `s.1` holds freshness `z` (newer than the candidates used
against it), at revision 5. -/
def storeNewer : Store := ⟨[("s.1", ⟨some [("updated_at", "z")], 5⟩)], 6⟩

/-- Bucket where `s.1` holds freshness `a` (older), at revision 5. -/
def storeOlder : Store := ⟨[("s.1", ⟨some [("updated_at", "a")], 5⟩)], 6⟩

/-- Registry where the bookmark property of stream `s` is the provenance
field `_sdc_received_at` itself. -/
def lsRecvBook : LoopState :=
  ⟨some "S0", [("s", ⟨acceptAll, ["id"], some ["_sdc_received_at"]⟩)]⟩

/-- Bucket where `s.1` holds a record whose `_sdc_received_at` is `2019`. -/
def storeRecv : Store :=
  ⟨[("s.1", ⟨some [("id", "1"), ("_sdc_received_at", "2019")], 5⟩)], 6⟩

/-- Registry whose stream `s` has the `rejectReceived` validator. -/
def lsForbidRecv : LoopState := ⟨none, [("s", ⟨rejectReceived, ["id"], none⟩)]⟩

/-- Comparison against the empty character list is never strict. -/
theorem charListLt_nil (l : List Char) : charListLt l [] = false := by
  cases l <;> rfl

/-- No string is strictly smaller than the empty string, so an absent
freshness value never wins a comparison. -/
theorem pyStrLt_empty (s : String) : pyStrLt s "" = false :=
  charListLt_nil s.toList

/-- Appending a differently-named field does not change field membership. -/
theorem hasField_append_ne (r0 : Record) (k w f : String) (h : k ≠ f) :
    hasField (r0 ++ [(k, w)]) f = hasField r0 f := by
  have hk : (k == f) = false := by simp [h]
  simp [hasField, List.find?_append, hk]

/-- Appending a differently-named field does not change field lookup. -/
theorem getField_append_ne (r0 : Record) (k w f : String) (h : k ≠ f) :
    getField (r0 ++ [(k, w)]) f = getField r0 f := by
  have hk : (k == f) = false := by simp [h]
  simp [getField, List.find?_append, hk]

/-- After appending a field, the record has it. -/
theorem hasField_append_self (r0 : Record) (k w : String) :
    hasField (r0 ++ [(k, w)]) k = true := by
  simp [hasField, List.find?_append]

/-- Appending a field absent from the record makes lookup return its value. -/
theorem getField_append_self (r0 : Record) (k w : String)
    (h : hasField r0 k = false) :
    getField (r0 ++ [(k, w)]) k = w := by
  cases hf : r0.find? (fun p => p.1 == k) with
  | none => simp [getField, List.find?_append, hf, Option.or]
  | some q => rw [hasField, hf] at h; simp at h

/-- Ensuring a field is present (add it when absent) always leaves it present. -/
theorem hasField_ensure (r1 : Record) (k w : String) :
    hasField (if hasField r1 k then r1 else r1 ++ [(k, w)]) k = true := by
  cases h : hasField r1 k with
  | true => simp [h]
  | false => simp [h, hasField_append_self]

/-- The enriched record always carries `_sdc_received_at`. -/
theorem enrich_hasReceived (r0 : Record) (te : Option String) (now : String) :
    hasField (enrichRecord r0 te now) "_sdc_received_at" = true := by
  unfold enrichRecord
  exact hasField_ensure _ "_sdc_received_at" now

/-- Reduction of `processRecord` for a stream with no registered schema:
the code raises (fatal outcome), touching neither store nor state. -/
theorem processRecord_noSchema {pre now : String} {ls : LoopState}
    {store : Store} {stream : String} {r0 : Record} {te : Option String}
    (hm : lookupMeta ls.registry stream = none) :
    processRecord pre now ls store stream r0 te
      = ⟨ls, store,
          some (.fatal ("A record for stream " ++ stream ++
            "was encountered before a corresponding schema")), []⟩ := by
  unfold processRecord
  rw [hm]

/-- Reduction of `processRecord` on the no-bookmark path: unconditional put
of the enriched record, and the checkpoint is cleared. -/
theorem processRecord_put {pre now : String} {ls : LoopState}
    {store : Store} {stream : String} {r0 : Record} {te : Option String}
    {meta : StreamMeta} {kp : String}
    (hm : lookupMeta ls.registry stream = some meta)
    (hkp : meta.keyProps = [kp])
    (hhas : hasField r0 kp = true)
    (hpk : getField r0 kp ≠ "")
    (hdollar : (getField r0 kp).toList.headD ' ' ≠ '$')
    (hval : meta.validator r0 = true)
    (hb : bookmarkAttrOf meta.bookmarkProps = none) :
    processRecord pre now ls store stream r0 te
      = ⟨⟨none, ls.registry⟩,
          storeWrite store (pre ++ stream ++ "." ++ getField r0 kp)
            (enrichRecord r0 te now),
          some (.acted (.put (pre ++ stream ++ "." ++ getField r0 kp)
            (enrichRecord r0 te now))),
          badCharWarnings stream (getField r0 kp)⟩ := by
  unfold processRecord
  rw [hm]
  simp only [hkp, hb, List.length_cons, List.length_nil, List.headD_cons,
    hhas, hpk, hdollar, hval]
  simp [hpk]
  simpa [String.toList] using hdollar

/-- Reduction of `processRecord` on the bookmark path when the key is not in
the bucket: create the enriched record, and the checkpoint is cleared. -/
theorem processRecord_create {pre now : String} {ls : LoopState}
    {store : Store} {stream : String} {r0 : Record} {te : Option String}
    {meta : StreamMeta} {kp attr : String}
    (hm : lookupMeta ls.registry stream = some meta)
    (hkp : meta.keyProps = [kp])
    (hhas : hasField r0 kp = true)
    (hpk : getField r0 kp ≠ "")
    (hdollar : (getField r0 kp).toList.headD ' ' ≠ '$')
    (hval : meta.validator r0 = true)
    (hb : bookmarkAttrOf meta.bookmarkProps = some attr)
    (hg : storeGet store (pre ++ stream ++ "." ++ getField r0 kp) = none) :
    processRecord pre now ls store stream r0 te
      = ⟨⟨none, ls.registry⟩,
          storeWrite store (pre ++ stream ++ "." ++ getField r0 kp)
            (enrichRecord r0 te now),
          some (.acted (.create (pre ++ stream ++ "." ++ getField r0 kp)
            (enrichRecord r0 te now))),
          badCharWarnings stream (getField r0 kp)⟩ := by
  unfold processRecord
  rw [hm]
  simp only [hkp, hb, hg, List.length_cons, List.length_nil, List.headD_cons,
    hhas, hpk, hdollar, hval]
  simp [hpk, hg]
  simpa [String.toList] using hdollar

/-- Reduction of `processRecord` when the existing value is empty: skip with
a warning; neither store nor checkpoint changes. -/
theorem processRecord_emptyValue {pre now : String} {ls : LoopState}
    {store : Store} {stream : String} {r0 : Record} {te : Option String}
    {meta : StreamMeta} {kp attr : String} {entry : Entry}
    (hm : lookupMeta ls.registry stream = some meta)
    (hkp : meta.keyProps = [kp])
    (hhas : hasField r0 kp = true)
    (hpk : getField r0 kp ≠ "")
    (hdollar : (getField r0 kp).toList.headD ' ' ≠ '$')
    (hval : meta.validator r0 = true)
    (hb : bookmarkAttrOf meta.bookmarkProps = some attr)
    (hg : storeGet store (pre ++ stream ++ "." ++ getField r0 kp) = some entry)
    (hv : entry.value = none) :
    processRecord pre now ls store stream r0 te
      = ⟨ls, store,
          some (.acted (.getSkip (pre ++ stream ++ "." ++ getField r0 kp)
            "unexpected empty existing value")),
          badCharWarnings stream (getField r0 kp) ++
            ["Unexpected empty existing value"]⟩ := by
  unfold processRecord
  rw [hm]
  simp only [hkp, hb, hg, hv, List.length_cons, List.length_nil,
    List.headD_cons, hhas, hpk, hdollar, hval]
  simp [hpk, hg, hv]
  simpa [String.toList] using hdollar

/-- Reduction of `processRecord` when the serialized existing value contains
the string `_sdc_deleted_at`: skip; neither store nor checkpoint changes. -/
theorem processRecord_tombstone {pre now : String} {ls : LoopState}
    {store : Store} {stream : String} {r0 : Record} {te : Option String}
    {meta : StreamMeta} {kp attr : String} {entry : Entry} {cur : Record}
    (hm : lookupMeta ls.registry stream = some meta)
    (hkp : meta.keyProps = [kp])
    (hhas : hasField r0 kp = true)
    (hpk : getField r0 kp ≠ "")
    (hdollar : (getField r0 kp).toList.headD ' ' ≠ '$')
    (hval : meta.validator r0 = true)
    (hb : bookmarkAttrOf meta.bookmarkProps = some attr)
    (hg : storeGet store (pre ++ stream ++ "." ++ getField r0 kp) = some entry)
    (hv : entry.value = some cur)
    (ht : containsSubstr (serializeRecord cur) "_sdc_deleted_at" = true) :
    processRecord pre now ls store stream r0 te
      = ⟨ls, store,
          some (.acted (.getSkip (pre ++ stream ++ "." ++ getField r0 kp)
            "target deleted")),
          badCharWarnings stream (getField r0 kp)⟩ := by
  unfold processRecord
  rw [hm]
  simp only [hkp, hb, hg, hv, ht, List.length_cons, List.length_nil,
    List.headD_cons, hhas, hpk, hdollar, hval]
  simp [hpk, hg, hv, ht]
  simpa [String.toList] using hdollar

/-- Reduction of `processRecord` on a strictly newer candidate: fenced update
at the revision the get returned; the checkpoint is NOT cleared (the update
branch leaves the loop body with `continue`, line 213, before line 238). -/
theorem processRecord_update {pre now : String} {ls : LoopState}
    {store : Store} {stream : String} {r0 : Record} {te : Option String}
    {meta : StreamMeta} {kp attr : String} {entry : Entry} {cur : Record}
    (hm : lookupMeta ls.registry stream = some meta)
    (hkp : meta.keyProps = [kp])
    (hhas : hasField r0 kp = true)
    (hpk : getField r0 kp ≠ "")
    (hdollar : (getField r0 kp).toList.headD ' ' ≠ '$')
    (hval : meta.validator r0 = true)
    (hb : bookmarkAttrOf meta.bookmarkProps = some attr)
    (hg : storeGet store (pre ++ stream ++ "." ++ getField r0 kp) = some entry)
    (hv : entry.value = some cur)
    (ht : containsSubstr (serializeRecord cur) "_sdc_deleted_at" = false)
    (hlt : pyStrLt (freshnessOf cur attr)
        (freshnessOf (enrichRecord r0 te now) attr) = true) :
    processRecord pre now ls store stream r0 te
      = ⟨ls,
          storeWrite store (pre ++ stream ++ "." ++ getField r0 kp)
            (enrichRecord r0 te now),
          some (.acted (.update (pre ++ stream ++ "." ++ getField r0 kp)
            (enrichRecord r0 te now) entry.revision)),
          badCharWarnings stream (getField r0 kp)⟩ := by
  unfold processRecord
  rw [hm]
  simp only [hkp, hb, hg, hv, ht, hlt, List.length_cons, List.length_nil,
    List.headD_cons, hhas, hpk, hdollar, hval]
  simp [hpk, hg, hv, ht, hlt]
  simpa [String.toList] using hdollar

/-- Reduction of `processRecord` on a not-strictly-newer candidate: skip;
neither store nor checkpoint changes. -/
theorem processRecord_notNewer {pre now : String} {ls : LoopState}
    {store : Store} {stream : String} {r0 : Record} {te : Option String}
    {meta : StreamMeta} {kp attr : String} {entry : Entry} {cur : Record}
    (hm : lookupMeta ls.registry stream = some meta)
    (hkp : meta.keyProps = [kp])
    (hhas : hasField r0 kp = true)
    (hpk : getField r0 kp ≠ "")
    (hdollar : (getField r0 kp).toList.headD ' ' ≠ '$')
    (hval : meta.validator r0 = true)
    (hb : bookmarkAttrOf meta.bookmarkProps = some attr)
    (hg : storeGet store (pre ++ stream ++ "." ++ getField r0 kp) = some entry)
    (hv : entry.value = some cur)
    (ht : containsSubstr (serializeRecord cur) "_sdc_deleted_at" = false)
    (hlt : pyStrLt (freshnessOf cur attr)
        (freshnessOf (enrichRecord r0 te now) attr) = false) :
    processRecord pre now ls store stream r0 te
      = ⟨ls, store,
          some (.acted (.getSkip (pre ++ stream ++ "." ++ getField r0 kp)
            "not newer")),
          badCharWarnings stream (getField r0 kp)⟩ := by
  unfold processRecord
  rw [hm]
  simp only [hkp, hb, hg, hv, ht, hlt, List.length_cons, List.length_nil,
    List.headD_cons, hhas, hpk, hdollar, hval]
  simp [hpk, hg, hv, ht, hlt]
  simpa [String.toList] using hdollar

/-- Reduction of `processRecord` when the stream does not have exactly one
configured key property: rejection, nothing touched. -/
theorem processRecord_rejNoKeyProp {pre now : String} {ls : LoopState}
    {store : Store} {stream : String} {r0 : Record} {te : Option String}
    {meta : StreamMeta}
    (hm : lookupMeta ls.registry stream = some meta)
    (hlen : ¬ meta.keyProps.length = 1) :
    processRecord pre now ls store stream r0 te
      = ⟨ls, store, some (.rejected "needs exactly 1 configured key property"), []⟩ := by
  unfold processRecord
  rw [hm]
  simp [hlen]

/-- Reduction of `processRecord` when the record lacks the key property:
rejection, nothing touched. -/
theorem processRecord_rejMissingKey {pre now : String} {ls : LoopState}
    {store : Store} {stream : String} {r0 : Record} {te : Option String}
    {meta : StreamMeta} {kp : String}
    (hm : lookupMeta ls.registry stream = some meta)
    (hkp : meta.keyProps = [kp])
    (hhas : hasField r0 kp = false) :
    processRecord pre now ls store stream r0 te
      = ⟨ls, store, some (.rejected "missing configured key property"), []⟩ := by
  unfold processRecord
  rw [hm]
  simp [hkp, hhas]

/-- Reduction of `processRecord` when the stringified key value is empty:
rejection, nothing touched. -/
theorem processRecord_rejEmptyKey {pre now : String} {ls : LoopState}
    {store : Store} {stream : String} {r0 : Record} {te : Option String}
    {meta : StreamMeta} {kp : String}
    (hm : lookupMeta ls.registry stream = some meta)
    (hkp : meta.keyProps = [kp])
    (hhas : hasField r0 kp = true)
    (hpk : getField r0 kp = "") :
    processRecord pre now ls store stream r0 te
      = ⟨ls, store, some (.rejected "empty primary key"), []⟩ := by
  unfold processRecord
  rw [hm]
  simp [hkp, hhas, hpk]

/-- Reduction of `processRecord` when the key value starts with `$`:
rejection, nothing touched. -/
theorem processRecord_rejDollar {pre now : String} {ls : LoopState}
    {store : Store} {stream : String} {r0 : Record} {te : Option String}
    {meta : StreamMeta} {kp : String}
    (hm : lookupMeta ls.registry stream = some meta)
    (hkp : meta.keyProps = [kp])
    (hhas : hasField r0 kp = true)
    (hpk : getField r0 kp ≠ "")
    (hd : (getField r0 kp).toList.headD ' ' = '$') :
    processRecord pre now ls store stream r0 te
      = ⟨ls, store, some (.rejected "primary key starting with $"), []⟩ := by
  have hd2 : (getField r0 kp).data.head?.getD ' ' = '$' := by
    simpa [String.toList] using hd
  unfold processRecord
  rw [hm]
  simp [hkp, hhas, hpk, hd2]

/-- Reduction of `processRecord` when schema validation fails (on the record
as received): rejection, nothing touched. -/
theorem processRecord_rejValidation {pre now : String} {ls : LoopState}
    {store : Store} {stream : String} {r0 : Record} {te : Option String}
    {meta : StreamMeta} {kp : String}
    (hm : lookupMeta ls.registry stream = some meta)
    (hkp : meta.keyProps = [kp])
    (hhas : hasField r0 kp = true)
    (hpk : getField r0 kp ≠ "")
    (hd : (getField r0 kp).toList.headD ' ' ≠ '$')
    (hval : meta.validator r0 = false) :
    processRecord pre now ls store stream r0 te
      = ⟨ls, store, some (.rejected "fails schema validation"),
          badCharWarnings stream (getField r0 kp)⟩ := by
  unfold processRecord
  rw [hm]
  simp [hkp, hhas, hpk, hval]
  simpa [String.toList] using hd

/-- Frame facts holding on every branch of `processRecord`: the registry is
never touched; the checkpoint is cleared exactly on the put and create
branches and kept otherwise; and every value written to the store is the
enriched input record. -/
theorem processRecord_frame {pre now : String} {ls : LoopState}
    {store : Store} {stream : String} {r0 : Record} {te : Option String} :
    ((processRecord pre now ls store stream r0 te).ls.registry = ls.registry)
    ∧ ((processRecord pre now ls store stream r0 te).ls.checkpoint
        = if clearsCheckpoint (processRecord pre now ls store stream r0 te).outcome
          then none else ls.checkpoint)
    ∧ (∀ v, writtenValue (processRecord pre now ls store stream r0 te).outcome
        = some v → v = enrichRecord r0 te now) := by
  cases hm : lookupMeta ls.registry stream with
  | none =>
    rw [processRecord_noSchema hm]
    simp [clearsCheckpoint, writtenValue]
  | some meta =>
    by_cases hlen : meta.keyProps.length = 1
    · obtain ⟨kp, hkp⟩ := List.length_eq_one.mp hlen
      cases hhas : hasField r0 kp with
      | false =>
        rw [processRecord_rejMissingKey hm hkp hhas]
        simp [clearsCheckpoint, writtenValue]
      | true =>
        by_cases hpk : getField r0 kp = ""
        · rw [processRecord_rejEmptyKey hm hkp hhas hpk]
          simp [clearsCheckpoint, writtenValue]
        · by_cases hd : (getField r0 kp).toList.headD ' ' = '$'
          · rw [processRecord_rejDollar hm hkp hhas hpk hd]
            simp [clearsCheckpoint, writtenValue]
          · cases hval : meta.validator r0 with
            | false =>
              rw [processRecord_rejValidation hm hkp hhas hpk hd hval]
              simp [clearsCheckpoint, writtenValue]
            | true =>
              cases hb : bookmarkAttrOf meta.bookmarkProps with
              | none =>
                rw [processRecord_put hm hkp hhas hpk hd hval hb]
                simp [clearsCheckpoint, writtenValue]
              | some attr =>
                cases hg : storeGet store (pre ++ stream ++ "." ++ getField r0 kp) with
                | none =>
                  rw [processRecord_create hm hkp hhas hpk hd hval hb hg]
                  simp [clearsCheckpoint, writtenValue]
                | some entry =>
                  cases hv : entry.value with
                  | none =>
                    rw [processRecord_emptyValue hm hkp hhas hpk hd hval hb hg hv]
                    simp [clearsCheckpoint, writtenValue]
                  | some cur =>
                    cases ht : containsSubstr (serializeRecord cur) "_sdc_deleted_at" with
                    | true =>
                      rw [processRecord_tombstone hm hkp hhas hpk hd hval hb hg hv ht]
                      simp [clearsCheckpoint, writtenValue]
                    | false =>
                      cases hlt : pyStrLt (freshnessOf cur attr)
                          (freshnessOf (enrichRecord r0 te now) attr) with
                      | true =>
                        rw [processRecord_update hm hkp hhas hpk hd hval hb hg hv ht hlt]
                        simp [clearsCheckpoint, writtenValue]
                      | false =>
                        rw [processRecord_notNewer hm hkp hhas hpk hd hval hb hg hv ht hlt]
                        simp [clearsCheckpoint, writtenValue]
    · rw [processRecord_rejNoKeyProp hm hlen]
      simp [clearsCheckpoint, writtenValue]

/-- Enrichment with no extraction time and `_sdc_received_at` present:
the record is unchanged. -/
theorem enrichRecord_none_present {r0 : Record} {now : String}
    (h : hasField r0 "_sdc_received_at" = true) :
    enrichRecord r0 none now = r0 := by
  simp [enrichRecord, h]

/-- Enrichment with no extraction time and `_sdc_received_at` absent:
exactly that field is appended. -/
theorem enrichRecord_none_absent {r0 : Record} {now : String}
    (h : hasField r0 "_sdc_received_at" = false) :
    enrichRecord r0 none now = r0 ++ [("_sdc_received_at", now)] := by
  simp [enrichRecord, h]

/-- Enrichment with an extraction time but `_sdc_extracted_at` already
present: same result as without an extraction time. -/
theorem enrichRecord_some_hasE {r0 : Record} {t now : String}
    (hE : hasField r0 "_sdc_extracted_at" = true) :
    enrichRecord r0 (some t) now = enrichRecord r0 none now := by
  simp [enrichRecord, hE]

/-- Enrichment adding `_sdc_extracted_at` while `_sdc_received_at` is
already present. -/
theorem enrichRecord_some_present {r0 : Record} {t now : String}
    (hE : hasField r0 "_sdc_extracted_at" = false)
    (hR : hasField r0 "_sdc_received_at" = true) :
    enrichRecord r0 (some t) now = r0 ++ [("_sdc_extracted_at", t)] := by
  have h1 : hasField (r0 ++ [("_sdc_extracted_at", t)]) "_sdc_received_at" = true := by
    rw [hasField_append_ne _ _ _ _ (by decide)]; exact hR
  simp [enrichRecord, hE, h1]

/-- Enrichment adding both provenance fields, in order. -/
theorem enrichRecord_some_absent {r0 : Record} {t now : String}
    (hE : hasField r0 "_sdc_extracted_at" = false)
    (hR : hasField r0 "_sdc_received_at" = false) :
    enrichRecord r0 (some t) now
      = r0 ++ [("_sdc_extracted_at", t)] ++ [("_sdc_received_at", now)] := by
  have h1 : hasField (r0 ++ [("_sdc_extracted_at", t)]) "_sdc_received_at" = false := by
    rw [hasField_append_ne _ _ _ _ (by decide)]; exact hR
  simp [enrichRecord, hE, h1]

/-- Enrichment leaves every field other than the two provenance fields
untouched, in presence and in value. -/
theorem enrich_frame_field (r0 : Record) (te : Option String) (now f : String)
    (hfE : f ≠ "_sdc_extracted_at") (hfR : f ≠ "_sdc_received_at") :
    hasField (enrichRecord r0 te now) f = hasField r0 f
    ∧ getField (enrichRecord r0 te now) f = getField r0 f := by
  have hE2 : ("_sdc_extracted_at" : String) ≠ f := Ne.symm hfE
  have hR2 : ("_sdc_received_at" : String) ≠ f := Ne.symm hfR
  cases te with
  | none =>
    cases h : hasField r0 "_sdc_received_at" with
    | true => rw [enrichRecord_none_present h]; exact ⟨rfl, rfl⟩
    | false =>
      rw [enrichRecord_none_absent h]
      exact ⟨hasField_append_ne _ _ _ _ hR2, getField_append_ne _ _ _ _ hR2⟩
  | some t =>
    cases hEx : hasField r0 "_sdc_extracted_at" with
    | true =>
      rw [enrichRecord_some_hasE hEx]
      cases h : hasField r0 "_sdc_received_at" with
      | true => rw [enrichRecord_none_present h]; exact ⟨rfl, rfl⟩
      | false =>
        rw [enrichRecord_none_absent h]
        exact ⟨hasField_append_ne _ _ _ _ hR2, getField_append_ne _ _ _ _ hR2⟩
    | false =>
      cases h : hasField r0 "_sdc_received_at" with
      | true =>
        rw [enrichRecord_some_present hEx h]
        exact ⟨hasField_append_ne _ _ _ _ hE2, getField_append_ne _ _ _ _ hE2⟩
      | false =>
        rw [enrichRecord_some_absent hEx h]
        constructor
        · rw [hasField_append_ne _ _ _ _ hR2, hasField_append_ne _ _ _ _ hE2]
        · rw [getField_append_ne _ _ _ _ hR2, getField_append_ne _ _ _ _ hE2]

/-- When a fresh extraction time is supplied, `_sdc_extracted_at` is added
and carries exactly that time. -/
theorem enrich_extracted_added (r0 : Record) (t now : String)
    (hE : hasField r0 "_sdc_extracted_at" = false) :
    hasField (enrichRecord r0 (some t) now) "_sdc_extracted_at" = true
    ∧ getField (enrichRecord r0 (some t) now) "_sdc_extracted_at" = t := by
  cases h : hasField r0 "_sdc_received_at" with
  | true =>
    rw [enrichRecord_some_present hE h]
    exact ⟨hasField_append_self _ _ _, getField_append_self _ _ _ hE⟩
  | false =>
    rw [enrichRecord_some_absent hE h]
    constructor
    · rw [hasField_append_ne _ _ _ _ (by decide)]
      exact hasField_append_self _ _ _
    · rw [getField_append_ne _ _ _ _ (by decide)]
      exact getField_append_self _ _ _ hE

/-- With no extraction time supplied, `_sdc_extracted_at` is untouched. -/
theorem enrich_extracted_none (r0 : Record) (now : String) :
    hasField (enrichRecord r0 none now) "_sdc_extracted_at"
        = hasField r0 "_sdc_extracted_at"
    ∧ getField (enrichRecord r0 none now) "_sdc_extracted_at"
        = getField r0 "_sdc_extracted_at" := by
  cases h : hasField r0 "_sdc_received_at" with
  | true => rw [enrichRecord_none_present h]; exact ⟨rfl, rfl⟩
  | false =>
    rw [enrichRecord_none_absent h]
    exact ⟨hasField_append_ne _ _ _ _ (by decide),
      getField_append_ne _ _ _ _ (by decide)⟩

/-- When `_sdc_extracted_at` is already present it is kept unchanged. -/
theorem enrich_extracted_kept (r0 : Record) (te : Option String) (now : String)
    (hE : hasField r0 "_sdc_extracted_at" = true) :
    hasField (enrichRecord r0 te now) "_sdc_extracted_at" = true
    ∧ getField (enrichRecord r0 te now) "_sdc_extracted_at"
        = getField r0 "_sdc_extracted_at" := by
  cases te with
  | none => exact ⟨(enrich_extracted_none r0 now).1.trans hE, (enrich_extracted_none r0 now).2⟩
  | some t =>
    rw [enrichRecord_some_hasE hE]
    exact ⟨(enrich_extracted_none r0 now).1.trans hE, (enrich_extracted_none r0 now).2⟩

/-- When `_sdc_received_at` is absent it is set to the receipt time. -/
theorem enrich_received_set (r0 : Record) (te : Option String) (now : String)
    (hR : hasField r0 "_sdc_received_at" = false) :
    getField (enrichRecord r0 te now) "_sdc_received_at" = now := by
  cases te with
  | none => rw [enrichRecord_none_absent hR]; exact getField_append_self _ _ _ hR
  | some t =>
    cases hE : hasField r0 "_sdc_extracted_at" with
    | true =>
      rw [enrichRecord_some_hasE hE, enrichRecord_none_absent hR]
      exact getField_append_self _ _ _ hR
    | false =>
      rw [enrichRecord_some_absent hE hR]
      have h1 : hasField (r0 ++ [("_sdc_extracted_at", t)]) "_sdc_received_at" = false := by
        rw [hasField_append_ne _ _ _ _ (by decide)]; exact hR
      exact getField_append_self _ _ _ h1

/-- When `_sdc_received_at` is already present it is kept unchanged. -/
theorem enrich_received_kept (r0 : Record) (te : Option String) (now : String)
    (hR : hasField r0 "_sdc_received_at" = true) :
    getField (enrichRecord r0 te now) "_sdc_received_at"
        = getField r0 "_sdc_received_at" := by
  cases te with
  | none => rw [enrichRecord_none_present hR]
  | some t =>
    cases hE : hasField r0 "_sdc_extracted_at" with
    | true => rw [enrichRecord_some_hasE hE, enrichRecord_none_present hR]
    | false =>
      rw [enrichRecord_some_present hE hR]
      exact getField_append_ne _ _ _ _ (by decide)

/-- C1 counterexample: the claim's rule (b) requires a fenced update whenever
the existing decoded record's freshness is strictly below the candidate's;
at this input the existing record's freshness "a" is below the candidate's
"b", so the claim's rule yields an update at revision 5, but the code skips
("target deleted") because the serialized existing value contains
`_sdc_deleted_at`. -/
theorem C1_claim_counterexample :
    (processRecord "" "T" lsBook storeTombField "s"
        [("id", "1"), ("updated_at", "b")] none).outcome
      = some (.acted (.getSkip "s.1" "target deleted"))
    ∧ claimedDecisionC1 metaBook storeTombField "s.1"
        (enrichRecord [("id", "1"), ("updated_at", "b")] none "T")
      = .update "s.1" (enrichRecord [("id", "1"), ("updated_at", "b")] none "T") 5
    ∧ (processRecord "" "T" lsBook storeTombField "s"
        [("id", "1"), ("updated_at", "b")] none).outcome
      ≠ some (.acted (claimedDecisionC1 metaBook storeTombField "s.1"
          (enrichRecord [("id", "1"), ("updated_at", "b")] none "T"))) :=
  ⟨rfl, rfl, by decide⟩

/-- C1 (amended): for every valid (schema-checked, keyed) record message the
resolver executes exactly one of four store operations: with no configured
freshness (bookmark) property, or an empty list, an unconditional put of the
enriched record; otherwise a get is performed and (a) a missing key gives a
create, (b) an empty existing value gives a skip, (c) a serialized existing
value containing `_sdc_deleted_at` gives a skip, (d) a candidate freshness
strictly greater than the existing one (absent freshness comparing as the
empty string) gives a fenced update at the revision the get returned, and
(e) otherwise a skip. -/
theorem C1_resolver_case_analysis {pre now : String} {ls : LoopState}
    {store : Store} {stream : String} {r0 : Record} {te : Option String}
    {meta : StreamMeta} {kp : String}
    (hm : lookupMeta ls.registry stream = some meta)
    (hkp : meta.keyProps = [kp])
    (hhas : hasField r0 kp = true)
    (hpk : getField r0 kp ≠ "")
    (hd : (getField r0 kp).toList.headD ' ' ≠ '$')
    (hval : meta.validator r0 = true) :
    (bookmarkAttrOf meta.bookmarkProps = none →
      (processRecord pre now ls store stream r0 te).outcome
        = some (.acted (.put (pre ++ stream ++ "." ++ getField r0 kp)
            (enrichRecord r0 te now))))
    ∧ (∀ attr, bookmarkAttrOf meta.bookmarkProps = some attr →
        (storeGet store (pre ++ stream ++ "." ++ getField r0 kp) = none →
          (processRecord pre now ls store stream r0 te).outcome
            = some (.acted (.create (pre ++ stream ++ "." ++ getField r0 kp)
                (enrichRecord r0 te now))))
        ∧ (∀ entry,
            storeGet store (pre ++ stream ++ "." ++ getField r0 kp) = some entry →
            (entry.value = none →
              (processRecord pre now ls store stream r0 te).outcome
                = some (.acted (.getSkip (pre ++ stream ++ "." ++ getField r0 kp)
                    "unexpected empty existing value")))
            ∧ (∀ cur, entry.value = some cur →
                (containsSubstr (serializeRecord cur) "_sdc_deleted_at" = true →
                  (processRecord pre now ls store stream r0 te).outcome
                    = some (.acted (.getSkip (pre ++ stream ++ "." ++ getField r0 kp)
                        "target deleted")))
                ∧ (containsSubstr (serializeRecord cur) "_sdc_deleted_at" = false →
                    (pyStrLt (freshnessOf cur attr)
                        (freshnessOf (enrichRecord r0 te now) attr) = true →
                      (processRecord pre now ls store stream r0 te).outcome
                        = some (.acted (.update
                            (pre ++ stream ++ "." ++ getField r0 kp)
                            (enrichRecord r0 te now) entry.revision)))
                    ∧ (pyStrLt (freshnessOf cur attr)
                        (freshnessOf (enrichRecord r0 te now) attr) = false →
                      (processRecord pre now ls store stream r0 te).outcome
                        = some (.acted (.getSkip
                            (pre ++ stream ++ "." ++ getField r0 kp)
                            "not newer"))))))) := by
  refine ⟨fun hb => ?_, fun attr hb => ⟨fun hg => ?_, fun entry hg => ⟨fun hv => ?_,
    fun cur hv => ⟨fun ht => ?_, fun ht => ⟨fun hlt => ?_, fun hlt => ?_⟩⟩⟩⟩⟩
  · rw [processRecord_put hm hkp hhas hpk hd hval hb]
  · rw [processRecord_create hm hkp hhas hpk hd hval hb hg]
  · rw [processRecord_emptyValue hm hkp hhas hpk hd hval hb hg hv]
  · rw [processRecord_tombstone hm hkp hhas hpk hd hval hb hg hv ht]
  · rw [processRecord_update hm hkp hhas hpk hd hval hb hg hv ht hlt]
  · rw [processRecord_notNewer hm hkp hhas hpk hd hval hb hg hv ht hlt]

/-- C1 witness: on a concrete stream with no bookmark property the theorem
yields the unconditional put of the enriched record. -/
theorem C1_resolver_case_analysis_witness :
    (processRecord "" "T" lsPlain store0 "s" [("id", "1")] none).outcome
      = some (.acted (.put "s.1" [("id", "1"), ("_sdc_received_at", "T")])) :=
  (@C1_resolver_case_analysis "" "T" lsPlain store0 "s" [("id", "1")] none
      ⟨acceptAll, ["id"], none⟩ "id" rfl rfl rfl (by decide) (by decide) rfl).1 rfl

/-- C2 (code bug): a record whose stringified key contains a space is logged
as having an invalid character but is NOT skipped: the inner character loop's
`continue` re-enters that loop instead of the message loop, so the record
proceeds and the put is executed, mutating the store at that key. -/
theorem C2_invalid_char_key_still_written :
    (processRecord "" "T" lsPlain store0 "s" [("id", "a b")] none).outcome
      = some (.acted (.put "s.a b" [("id", "a b"), ("_sdc_received_at", "T")]))
    ∧ (processRecord "" "T" lsPlain store0 "s" [("id", "a b")] none).warnings
      = ["Ignoring record for stream s with primary key containing invalid character  "]
    ∧ storeGet (processRecord "" "T" lsPlain store0 "s" [("id", "a b")] none).store "s.a b"
      = some ⟨some [("id", "a b"), ("_sdc_received_at", "T")], 1⟩ :=
  ⟨rfl, rfl, rfl⟩

/-- C3 counterexample: a record for a stream with no prior schema message
aborts the whole run with an error, contradicting the claim that this is a
non-fatal, logged-and-skipped rejection after which processing continues. -/
theorem C3_claim_counterexample :
    runMessages "" "T" [.msg (.record "s" [("id", "1")] none)] ⟨none, []⟩ store0
      = .error "A record for stream swas encountered before a corresponding schema" :=
  rfl

/-- C3 (amended): a record message for a stream with no registered schema
raises: the record outcome is fatal and the run aborts with that error, no
matter what input follows. -/
theorem C3_missing_schema_aborts {pre now : String} {ls : LoopState}
    {store : Store} {stream : String} {r0 : Record} {te : Option String}
    (hm : lookupMeta ls.registry stream = none) :
    (processRecord pre now ls store stream r0 te).outcome
      = some (.fatal ("A record for stream " ++ stream ++
          "was encountered before a corresponding schema"))
    ∧ ∀ rest, runMessages pre now (.msg (.record stream r0 te) :: rest) ls store
      = .error ("A record for stream " ++ stream ++
          "was encountered before a corresponding schema") := by
  constructor
  · rw [processRecord_noSchema hm]
  · intro rest
    have h : processRecord pre now ls store stream r0 te
        = ⟨ls, store,
            some (.fatal ("A record for stream " ++ stream ++
              "was encountered before a corresponding schema")), []⟩ :=
      processRecord_noSchema hm
    simp only [runMessages, processMessage, h]

/-- C3 witness: the amended theorem applied at a concrete unknown stream. -/
theorem C3_missing_schema_aborts_witness :
    (processRecord "" "T" ⟨none, []⟩ store0 "t2" [("x", "1")] none).outcome
      = some (.fatal "A record for stream t2was encountered before a corresponding schema") :=
  (@C3_missing_schema_aborts "" "T" ⟨none, []⟩ store0 "t2" [("x", "1")] none rfl).1

/-- C4 counterexample: the existing record at `s.1` does not contain the
field `_sdc_deleted_at`, and the candidate's freshness "b" is strictly above
the existing "a", so under the claim the record proceeds to the freshness
comparison and is not skipped; the code nevertheless skips with "target
deleted", because the substring `_sdc_deleted_at` occurs inside a field
VALUE of the serialized existing record. -/
theorem C4_claim_counterexample :
    hasField [("updated_at", "a"), ("note", "_sdc_deleted_at")] "_sdc_deleted_at" = false
    ∧ pyStrLt (freshnessOf [("updated_at", "a"), ("note", "_sdc_deleted_at")] "updated_at")
        (freshnessOf (enrichRecord [("id", "1"), ("updated_at", "b")] none "T")
          "updated_at") = true
    ∧ (processRecord "" "T" lsBook storeTombSubstr "s"
        [("id", "1"), ("updated_at", "b")] none).outcome
      = some (.acted (.getSkip "s.1" "target deleted")) :=
  ⟨rfl, by decide, rfl⟩

/-- C4 (amended): on the freshness path with an existing non-empty value,
the record is skipped if and only if the SERIALIZED existing value contains
the substring `_sdc_deleted_at` (the code tests the decoded text, not field
membership in the decoded record) or the candidate's freshness is not
strictly greater than the existing record's. -/
theorem C4_skip_iff_substr_or_notNewer {pre now : String} {ls : LoopState}
    {store : Store} {stream : String} {r0 : Record} {te : Option String}
    {meta : StreamMeta} {kp attr : String} {entry : Entry} {cur : Record}
    (hm : lookupMeta ls.registry stream = some meta)
    (hkp : meta.keyProps = [kp])
    (hhas : hasField r0 kp = true)
    (hpk : getField r0 kp ≠ "")
    (hd : (getField r0 kp).toList.headD ' ' ≠ '$')
    (hval : meta.validator r0 = true)
    (hb : bookmarkAttrOf meta.bookmarkProps = some attr)
    (hg : storeGet store (pre ++ stream ++ "." ++ getField r0 kp) = some entry)
    (hv : entry.value = some cur) :
    isGetSkip (processRecord pre now ls store stream r0 te).outcome = true
      ↔ (containsSubstr (serializeRecord cur) "_sdc_deleted_at" = true
          ∨ pyStrLt (freshnessOf cur attr)
              (freshnessOf (enrichRecord r0 te now) attr) = false) := by
  cases ht : containsSubstr (serializeRecord cur) "_sdc_deleted_at" with
  | true =>
    rw [processRecord_tombstone hm hkp hhas hpk hd hval hb hg hv ht]
    simp [isGetSkip]
  | false =>
    cases hlt : pyStrLt (freshnessOf cur attr)
        (freshnessOf (enrichRecord r0 te now) attr) with
    | true =>
      rw [processRecord_update hm hkp hhas hpk hd hval hb hg hv ht hlt]
      simp [isGetSkip]
    | false =>
      rw [processRecord_notNewer hm hkp hhas hpk hd hval hb hg hv ht hlt]
      simp [isGetSkip]

/-- C4 witness: a concrete not-newer candidate against a newer stored value
is skipped via the right-hand disjunct of the theorem. -/
theorem C4_skip_iff_substr_or_notNewer_witness :
    isGetSkip (processRecord "" "T" lsBook storeNewer "s"
        [("id", "1"), ("updated_at", "a")] none).outcome = true :=
  (@C4_skip_iff_substr_or_notNewer "" "T" lsBook storeNewer "s"
      [("id", "1"), ("updated_at", "a")] none metaBook "id" "updated_at"
      ⟨some [("updated_at", "z")], 5⟩ [("updated_at", "z")]
      rfl rfl rfl (by decide) (by decide) rfl rfl rfl rfl).mpr
    (Or.inr (by decide))

/-- C5 counterexample: after a STATE message, a record message that is
skipped ("not newer") leaves the held checkpoint in place, so the checkpoint
observed before that record IS emitted at run end; moreover even a durable
fenced update leaves the checkpoint unchanged, because the update branch
leaves the loop with `continue` before `state = None`. -/
theorem C5_claim_counterexample :
    runMessages "" "T" [.msg (.state "X"),
        .msg (.record "s" [("id", "1"), ("updated_at", "a")] none)] lsBook storeNewer
      = .ok (⟨some "X", lsBook.registry⟩, storeNewer)
    ∧ (processRecord "" "T" lsBook storeOlder "s"
        [("id", "1"), ("updated_at", "b")] none).outcome
      = some (.acted (.update "s.1"
          [("id", "1"), ("updated_at", "b"), ("_sdc_received_at", "T")] 5))
    ∧ (processRecord "" "T" lsBook storeOlder "s"
        [("id", "1"), ("updated_at", "b")] none).ls.checkpoint
      = some "S0" :=
  ⟨rfl, rfl, rfl⟩

/-- C5 (amended): after a record message the held checkpoint is cleared
exactly when the outcome was an unconditional put or a create; rejected,
skipped and fenced-update outcomes leave it unchanged (and the registry is
never modified by a record message). -/
theorem C5_checkpoint_cleared_iff_put_or_create (pre now : String)
    (ls : LoopState) (store : Store) (stream : String) (r0 : Record)
    (te : Option String) :
    ((processRecord pre now ls store stream r0 te).ls.checkpoint
      = if clearsCheckpoint (processRecord pre now ls store stream r0 te).outcome
        then none else ls.checkpoint)
    ∧ (processRecord pre now ls store stream r0 te).ls.registry = ls.registry :=
  ⟨processRecord_frame.2.1, processRecord_frame.1⟩

/-- C6: an input line that fails to parse aborts the run with the offending
line in the diagnostic, while successfully parsed ACTIVATE_VERSION and
unknown-variant messages are logged and ignored: no store operation, no
state change, no error, and processing continues with the rest of the
input. -/
theorem C6_parse_fatal_unsupported_ignored (pre now : String) :
    (∀ (line : String) (rest : List ParseItem) (ls : LoopState) (store : Store),
        runMessages pre now (.failure line :: rest) ls store
          = .error ("Unable to parse: " ++ line))
    ∧ (∀ (stream : String) (ver : Nat) (ls : LoopState) (store : Store),
        processMessage pre now ls store (.activateVersion stream ver)
          = ⟨ls, store, none, ["ACTIVATE_VERSION is unsupported (" ++ stream ++ ")"]⟩)
    ∧ (∀ (ls : LoopState) (store : Store),
        processMessage pre now ls store .unknown
          = ⟨ls, store, none, ["Unknown message"]⟩)
    ∧ (∀ (stream : String) (ver : Nat) (rest : List ParseItem)
        (ls : LoopState) (store : Store),
        runMessages pre now (.msg (.activateVersion stream ver) :: rest) ls store
          = runMessages pre now rest ls store)
    ∧ (∀ (rest : List ParseItem) (ls : LoopState) (store : Store),
        runMessages pre now (.msg .unknown :: rest) ls store
          = runMessages pre now rest ls store) :=
  ⟨fun _ _ _ _ => rfl, fun _ _ _ _ => rfl, fun _ _ => rfl,
   fun _ _ _ _ _ => rfl, fun _ _ _ => rfl⟩

/-- C7: every value `processRecord` persists is the enriched input record,
and enrichment changes the record in exactly the claimed way:
`_sdc_extracted_at` is added, with the supplied extraction time, only when
an extraction time was supplied and the field was absent; `_sdc_received_at`
is added with the receipt time exactly when absent; every other field keeps
its presence and value. -/
theorem C7_enrichment_exact {pre now : String} {ls : LoopState}
    {store : Store} {stream : String} {r0 : Record} {te : Option String} :
    (∀ v, writtenValue (processRecord pre now ls store stream r0 te).outcome
        = some v → v = enrichRecord r0 te now)
    ∧ (∀ f, f ≠ "_sdc_extracted_at" → f ≠ "_sdc_received_at" →
        hasField (enrichRecord r0 te now) f = hasField r0 f
        ∧ getField (enrichRecord r0 te now) f = getField r0 f)
    ∧ (∀ t, te = some t → hasField r0 "_sdc_extracted_at" = false →
        hasField (enrichRecord r0 te now) "_sdc_extracted_at" = true
        ∧ getField (enrichRecord r0 te now) "_sdc_extracted_at" = t)
    ∧ (te = none →
        hasField (enrichRecord r0 te now) "_sdc_extracted_at"
            = hasField r0 "_sdc_extracted_at"
        ∧ getField (enrichRecord r0 te now) "_sdc_extracted_at"
            = getField r0 "_sdc_extracted_at")
    ∧ (hasField r0 "_sdc_extracted_at" = true →
        hasField (enrichRecord r0 te now) "_sdc_extracted_at" = true
        ∧ getField (enrichRecord r0 te now) "_sdc_extracted_at"
            = getField r0 "_sdc_extracted_at")
    ∧ hasField (enrichRecord r0 te now) "_sdc_received_at" = true
    ∧ (hasField r0 "_sdc_received_at" = false →
        getField (enrichRecord r0 te now) "_sdc_received_at" = now)
    ∧ (hasField r0 "_sdc_received_at" = true →
        getField (enrichRecord r0 te now) "_sdc_received_at"
            = getField r0 "_sdc_received_at") := by
  refine ⟨processRecord_frame.2.2,
    fun f hfE hfR => enrich_frame_field r0 te now f hfE hfR,
    fun t hte hE => ?_, fun hte => ?_,
    fun hE => enrich_extracted_kept r0 te now hE,
    enrich_hasReceived r0 te now,
    fun hR => enrich_received_set r0 te now hR,
    fun hR => enrich_received_kept r0 te now hR⟩
  · subst hte; exact enrich_extracted_added r0 t now hE
  · subst hte; exact enrich_extracted_none r0 now

/-- C7 witness: the concrete put persists exactly the enriched record. -/
theorem C7_enrichment_exact_witness :
    [("id", "1"), ("_sdc_received_at", "T")] = enrichRecord [("id", "1")] none "T" :=
  (@C7_enrichment_exact "" "T" lsPlain store0 "s" [("id", "1")] none).1
    [("id", "1"), ("_sdc_received_at", "T")] rfl

/-- C8: every store action a record message leads to (get-skips included)
addresses exactly the key `prefix ++ stream ++ "." ++ primaryKeyValue`. -/
theorem C8_store_key_shape {pre now : String} {ls : LoopState}
    {store : Store} {stream : String} {r0 : Record} {te : Option String}
    {meta : StreamMeta} {kp : String}
    (hm : lookupMeta ls.registry stream = some meta)
    (hkp : meta.keyProps = [kp]) :
    ∀ a, (processRecord pre now ls store stream r0 te).outcome
        = some (.acted a) →
      actionKey a = pre ++ stream ++ "." ++ getField r0 kp := by
  intro a ha
  cases hhas : hasField r0 kp with
  | false => rw [processRecord_rejMissingKey hm hkp hhas] at ha; simp at ha
  | true =>
    by_cases hpk : getField r0 kp = ""
    · rw [processRecord_rejEmptyKey hm hkp hhas hpk] at ha; simp at ha
    · by_cases hd : (getField r0 kp).toList.headD ' ' = '$'
      · rw [processRecord_rejDollar hm hkp hhas hpk hd] at ha; simp at ha
      · cases hval : meta.validator r0 with
        | false =>
          rw [processRecord_rejValidation hm hkp hhas hpk hd hval] at ha
          simp at ha
        | true =>
          cases hb : bookmarkAttrOf meta.bookmarkProps with
          | none =>
            rw [processRecord_put hm hkp hhas hpk hd hval hb] at ha
            simp at ha
            subst ha
            rfl
          | some attr =>
            cases hg : storeGet store (pre ++ stream ++ "." ++ getField r0 kp) with
            | none =>
              rw [processRecord_create hm hkp hhas hpk hd hval hb hg] at ha
              simp at ha
              subst ha
              rfl
            | some entry =>
              cases hv : entry.value with
              | none =>
                rw [processRecord_emptyValue hm hkp hhas hpk hd hval hb hg hv] at ha
                simp at ha
                subst ha
                rfl
              | some cur =>
                cases ht : containsSubstr (serializeRecord cur) "_sdc_deleted_at" with
                | true =>
                  rw [processRecord_tombstone hm hkp hhas hpk hd hval hb hg hv ht] at ha
                  simp at ha
                  subst ha
                  rfl
                | false =>
                  cases hlt : pyStrLt (freshnessOf cur attr)
                      (freshnessOf (enrichRecord r0 te now) attr) with
                  | true =>
                    rw [processRecord_update hm hkp hhas hpk hd hval hb hg hv ht hlt] at ha
                    simp at ha
                    subst ha
                    rfl
                  | false =>
                    rw [processRecord_notNewer hm hkp hhas hpk hd hval hb hg hv ht hlt] at ha
                    simp at ha
                    subst ha
                    rfl

/-- C8 witness: the theorem applied at a concrete put. -/
theorem C8_store_key_shape_witness :
    actionKey (.put "s.1" [("id", "1"), ("_sdc_received_at", "T")]) = "s.1" :=
  @C8_store_key_shape "" "T" lsPlain store0 "s" [("id", "1")] none
    ⟨acceptAll, ["id"], none⟩ "id" rfl rfl
    (.put "s.1" [("id", "1"), ("_sdc_received_at", "T")]) rfl

/-- C9 counterexample: with the freshness property configured as
`_sdc_received_at`, a record lacking that field has it added by enrichment
BEFORE the bookmark value is read, so the candidate's freshness is not the
empty string, and against an existing non-empty, non-tombstoned value the
code issues a fenced update, although the claim says such a record is always
skipped and never written. -/
theorem C9_claim_counterexample :
    hasField [("id", "1")] "_sdc_received_at" = false
    ∧ storeGet storeRecv "s.1"
      = some ⟨some [("id", "1"), ("_sdc_received_at", "2019")], 5⟩
    ∧ containsSubstr (serializeRecord [("id", "1"), ("_sdc_received_at", "2019")])
        "_sdc_deleted_at" = false
    ∧ (processRecord "" "2020" lsRecvBook storeRecv "s" [("id", "1")] none).outcome
      = some (.acted (.update "s.1" [("id", "1"), ("_sdc_received_at", "2020")] 5)) :=
  ⟨rfl, rfl, by decide, rfl⟩

/-- C9 (amended): if the record AFTER provenance enrichment lacks the
stream's freshness field (in particular whenever the original record lacks
it and the freshness property is not one of the two provenance fields), the
candidate freshness reads as the empty string, which is never strictly
greater, so an existing non-empty, non-tombstoned entry is never
overwritten: the record is skipped as not newer. -/
theorem C9_missing_freshness_never_written {pre now : String}
    {ls : LoopState} {store : Store} {stream : String} {r0 : Record}
    {te : Option String} {meta : StreamMeta} {kp attr : String}
    {entry : Entry} {cur : Record}
    (hm : lookupMeta ls.registry stream = some meta)
    (hkp : meta.keyProps = [kp])
    (hhas : hasField r0 kp = true)
    (hpk : getField r0 kp ≠ "")
    (hd : (getField r0 kp).toList.headD ' ' ≠ '$')
    (hval : meta.validator r0 = true)
    (hb : bookmarkAttrOf meta.bookmarkProps = some attr)
    (hnf : hasField (enrichRecord r0 te now) attr = false)
    (hg : storeGet store (pre ++ stream ++ "." ++ getField r0 kp) = some entry)
    (hv : entry.value = some cur)
    (ht : containsSubstr (serializeRecord cur) "_sdc_deleted_at" = false) :
    processRecord pre now ls store stream r0 te
      = ⟨ls, store,
          some (.acted (.getSkip (pre ++ stream ++ "." ++ getField r0 kp)
            "not newer")),
          badCharWarnings stream (getField r0 kp)⟩ := by
  have hs : freshnessOf (enrichRecord r0 te now) attr = "" := by
    simp [freshnessOf, hnf]
  have hlt : pyStrLt (freshnessOf cur attr)
      (freshnessOf (enrichRecord r0 te now) attr) = false := by
    rw [hs]; exact pyStrLt_empty _
  exact processRecord_notNewer hm hkp hhas hpk hd hval hb hg hv ht hlt

/-- C9 witness: a concrete record lacking `updated_at` is skipped against an
existing entry. -/
theorem C9_missing_freshness_never_written_witness :
    processRecord "" "T" lsBook storeOlder "s" [("id", "1")] none
      = ⟨lsBook, storeOlder, some (.acted (.getSkip "s.1" "not newer")), []⟩ :=
  @C9_missing_freshness_never_written "" "T" lsBook storeOlder "s" [("id", "1")]
    none metaBook "id" "updated_at" ⟨some [("updated_at", "a")], 5⟩
    [("updated_at", "a")] rfl rfl rfl (by decide) (by decide) rfl rfl
    (by decide) rfl rfl (by decide)

/-- C10: schema validation runs on the record as received, before provenance
enrichment: a record passing validation is never rejected for schema
validation, even when the enriched value it persists would fail the same
validator, and every persisted value carries the never-validated
`_sdc_received_at` field. -/
theorem C10_validation_precedes_enrichment {pre now : String}
    {ls : LoopState} {store : Store} {stream : String} {r0 : Record}
    {te : Option String} {meta : StreamMeta}
    (hm : lookupMeta ls.registry stream = some meta)
    (hval : meta.validator r0 = true) :
    (processRecord pre now ls store stream r0 te).outcome
        ≠ some (.rejected "fails schema validation")
    ∧ ∀ v, writtenValue (processRecord pre now ls store stream r0 te).outcome
        = some v → hasField v "_sdc_received_at" = true := by
  constructor
  · by_cases hlen : meta.keyProps.length = 1
    · obtain ⟨kp, hkp⟩ := List.length_eq_one.mp hlen
      cases hhas : hasField r0 kp with
      | false => rw [processRecord_rejMissingKey hm hkp hhas]; simp
      | true =>
        by_cases hpk : getField r0 kp = ""
        · rw [processRecord_rejEmptyKey hm hkp hhas hpk]; simp
        · by_cases hd : (getField r0 kp).toList.headD ' ' = '$'
          · rw [processRecord_rejDollar hm hkp hhas hpk hd]; simp
          · cases hb : bookmarkAttrOf meta.bookmarkProps with
            | none => rw [processRecord_put hm hkp hhas hpk hd hval hb]; simp
            | some attr =>
              cases hg : storeGet store
                  (pre ++ stream ++ "." ++ getField r0 kp) with
              | none => rw [processRecord_create hm hkp hhas hpk hd hval hb hg]; simp
              | some entry =>
                cases hv : entry.value with
                | none =>
                  rw [processRecord_emptyValue hm hkp hhas hpk hd hval hb hg hv]
                  simp
                | some cur =>
                  cases ht : containsSubstr (serializeRecord cur) "_sdc_deleted_at" with
                  | true =>
                    rw [processRecord_tombstone hm hkp hhas hpk hd hval hb hg hv ht]
                    simp
                  | false =>
                    cases hlt : pyStrLt (freshnessOf cur attr)
                        (freshnessOf (enrichRecord r0 te now) attr) with
                    | true =>
                      rw [processRecord_update hm hkp hhas hpk hd hval hb hg hv ht hlt]
                      simp
                    | false =>
                      rw [processRecord_notNewer hm hkp hhas hpk hd hval hb hg hv ht hlt]
                      simp
    · rw [processRecord_rejNoKeyProp hm hlen]; simp
  · intro v hv
    rw [processRecord_frame.2.2 v hv]
    exact enrich_hasReceived r0 te now

/-- C10 witness: a validator forbidding `_sdc_received_at` accepts the
incoming record, the record is not rejected, and the persisted enriched
value carries the forbidden field and fails that same validator. -/
theorem C10_validation_precedes_enrichment_witness :
    rejectReceived [("id", "1")] = true
    ∧ (processRecord "" "T" lsForbidRecv store0 "s" [("id", "1")] none).outcome
        ≠ some (.rejected "fails schema validation")
    ∧ hasField [("id", "1"), ("_sdc_received_at", "T")] "_sdc_received_at" = true
    ∧ rejectReceived [("id", "1"), ("_sdc_received_at", "T")] = false :=
  ⟨rfl,
   (@C10_validation_precedes_enrichment "" "T" lsForbidRecv store0 "s"
      [("id", "1")] none ⟨rejectReceived, ["id"], none⟩ rfl rfl).1,
   (@C10_validation_precedes_enrichment "" "T" lsForbidRecv store0 "s"
      [("id", "1")] none ⟨rejectReceived, ["id"], none⟩ rfl rfl).2
     [("id", "1"), ("_sdc_received_at", "T")] rfl,
   rfl⟩

end TargetNatsKv
